import Mathlib

/-!
Verification of the Edward_Voice_AI repository core against its specification.

The Python sources `src/vad.py` and `src/ai_brain.py` are shallowly embedded
below: strings become `List Char`, numpy float frames become `List ℚ`,
mutable objects become explicit state records, randomness becomes explicit
oracle arguments, and Python exceptions become `Except`/`Option` error values.
-/

set_option maxRecDepth 4000

/-! ## Basic string helpers (Python `str` operations on `List Char`) -/

/-- Whitespace test matching Python `str.strip`/`str.split` whitespace. -/
def isSpace (c : Char) : Bool :=
  c == ' ' || c == '\t' || c == '\n' || c == '\r' ||
  c == Char.ofNat 11 || c == Char.ofNat 12

/-- Python `not s.strip()`: true iff every character is whitespace. -/
def isAllSpace (s : List Char) : Bool := s.all isSpace

/-- Python `s.strip()`: drop leading and trailing whitespace. -/
def stripChars (s : List Char) : List Char :=
  (((s.dropWhile isSpace).reverse).dropWhile isSpace).reverse

/-- Helper for `tokens`: accumulates the current word (reversed). -/
def tokensAux : List Char → List Char → List (List Char)
  | [], acc => if acc.isEmpty then [] else [acc.reverse]
  | c :: cs, acc =>
    if isSpace c then
      if acc.isEmpty then tokensAux cs [] else acc.reverse :: tokensAux cs []
    else tokensAux cs (c :: acc)

/-- Python `s.split()`: split on runs of whitespace, dropping empty pieces. -/
def tokens (s : List Char) : List (List Char) := tokensAux s []

/-- Does `hay` start with `pre`? (Python `str.startswith`). -/
def startsWith : List Char → List Char → Bool
  | _, [] => true
  | [], _ :: _ => false
  | a :: as, b :: bs => a == b && startsWith as bs

/-- Does `needle` occur as a contiguous substring of `hay`? (Python `in`). -/
def containsSub : List Char → List Char → Bool
  | [], needle => needle.isEmpty
  | a :: rest, needle => startsWith (a :: rest) needle || containsSub rest needle

/-- The suffix after the first occurrence of `sep` in `hay`
(Python `hay.split(sep, 1)[1]`, `none` when `sep` does not occur). -/
def afterFirst : List Char → List Char → Option (List Char)
  | [], _ => none
  | a :: rest, sep =>
    if startsWith (a :: rest) sep then some ((a :: rest).drop sep.length)
    else afterFirst rest sep

/-- Python `s.rstrip('.,!?')`. -/
def rstripPunct (s : List Char) : List Char :=
  (s.reverse.dropWhile (fun c => c == '.' || c == ',' || c == '!' || c == '?')).reverse

/-- Python slice `l[-n:]` for `n ≥ 1`: the last `min n (length l)` elements. -/
def lastSlice {α : Type} (n : Nat) (l : List α) : List α := l.drop (l.length - n)

/-- Python slice `l[-n:]` including the `n = 0` quirk (`l[-0:]` is all of `l`). -/
def pyTail {α : Type} (n : Nat) (l : List α) : List α :=
  if n = 0 then l else lastSlice n l

/-! ## Voice activity detector (`src/vad.py`, `VoiceActivityDetector`) -/

/-- The mutable state of one `VoiceActivityDetector` instance:
`is_speaking` and the rolling raw-decision list `speech_buffer`. -/
structure VADState where
  is_speaking : Bool
  speech_buffer : List Bool
deriving DecidableEq

/-- `VoiceActivityDetector.__init__`: not speaking, empty buffer. -/
def initVAD : VADState := ⟨false, []⟩

/-- The hysteresis update of `process_audio` (vad.py lines 89-102), given the
raw per-frame decision `d` (`is_speech_detected`). -/
def processDecision (s : VADState) (d : Bool) : VADState :=
  if d then
    let buf := s.speech_buffer ++ [true]
    if buf.length > 3 then
      { is_speaking := true, speech_buffer := lastSlice 3 buf }
    else { s with speech_buffer := buf }
  else
    let buf := s.speech_buffer ++ [false]
    if buf.length > 5 then
      if (lastSlice 3 buf).any id then { s with speech_buffer := buf }
      else { is_speaking := false, speech_buffer := [] }
    else { s with speech_buffer := buf }

/-- Feed a sequence of raw decisions to a fresh detector. -/
def runVAD (ds : List Bool) : VADState := ds.foldl processDecision initVAD

/-- Truncation toward zero, as numpy `astype(np.int16)` does on floats
(inputs in [-1,1] never overflow 16 bits). -/
def truncQ (x : ℚ) : ℤ := if 0 ≤ x then ⌊x⌋ else ⌈x⌉

/-- `(audio_data * 32767).astype(np.int16)` for one normalized sample. -/
def toInt16 (x : ℚ) : ℤ := truncQ (x * 32767)

/-- `np.mean(np.abs(audio_data))` after the int16 conversion
(vad.py lines 58-60 and 86). -/
def fallbackEnergy (frame : List ℚ) : ℚ :=
  ((frame.map toInt16).map (fun v => |(v : ℚ)|)).sum / ((frame.map toInt16).length : ℚ)

/-- The fallback raw decision of `process_audio` when the external classifier
is unavailable (`self.vad is None`): `energy > 0.01` (vad.py lines 84-87),
for a float-dtype input frame (so the int16 conversion applies first). -/
def fallbackDecision (frame : List ℚ) : Bool := decide (1/100 < fallbackEnergy frame)

/-- Full `process_audio` for a normalized float frame with the classifier
unavailable: fallback classification, then the hysteresis update. -/
def process_audio (s : VADState) (frame : List ℚ) : VADState :=
  processDecision s (fallbackDecision frame)

/-- Number of consecutive `true` raw decisions at the end of a decision
sequence, i.e. since the last `false`. -/
def consecTrueSuffix (ds : List Bool) : Nat := (ds.reverse.takeWhile id).length

/-- Mean absolute amplitude threshold as the specification words it:
directly on the [-1,1]-normalized samples, without int16 conversion. -/
def specFallbackC5 (frame : List ℚ) : Bool :=
  decide (1/100 < (frame.map (fun x => |x|)).sum / (frame.length : ℚ))

/-! ## VAD invariant -/

/-- Invariant of reachable detector states: the rolling buffer holds at most 5
entries, and every entry past index 2 is `false` (a `true` append always trims
the buffer to length 3). -/
def VADInv (s : VADState) : Prop :=
  s.speech_buffer.length ≤ 5 ∧ ∀ b ∈ s.speech_buffer.drop 3, b = false

lemma vadInv_init : VADInv initVAD := by
  constructor <;> simp [initVAD]

lemma vadInv_step (s : VADState) (d : Bool) (h : VADInv s) :
    VADInv (processDecision s d) := by
  obtain ⟨hlen, hdrop⟩ := h
  unfold processDecision
  cases d with
  | true =>
    simp only [if_pos]
    split
    · refine ⟨?_, ?_⟩
      · simp [lastSlice]
        omega
      · intro b hb
        exfalso
        have h3 : (lastSlice 3 (s.speech_buffer ++ [true])).length ≤ 3 := by
          simp [lastSlice]
          omega
        have := List.length_lt_of_drop_ne_nil (l := lastSlice 3 (s.speech_buffer ++ [true])) (n := 3)
        have hnil : (lastSlice 3 (s.speech_buffer ++ [true])).drop 3 = [] :=
          List.drop_eq_nil_of_le h3
        rw [hnil] at hb
        exact (List.not_mem_nil b) hb
    · rename_i hle
      have hl : (s.speech_buffer ++ [true]).length ≤ 3 := by
        simp only [List.length_append, List.length_cons, List.length_nil] at hle ⊢
        omega
      refine ⟨?_, ?_⟩
      · show (s.speech_buffer ++ [true]).length ≤ 5
        simp only [List.length_append, List.length_cons, List.length_nil] at hl ⊢
        omega
      · show ∀ b ∈ (s.speech_buffer ++ [true]).drop 3, b = false
        intro b hb
        rw [List.drop_eq_nil_of_le hl] at hb
        exact absurd hb (List.not_mem_nil b)
  | false =>
    simp only [Bool.false_eq_true, if_neg, not_false_iff]
    split
    · rename_i hgt
      have hsb : s.speech_buffer.length = 5 := by
        simp at hgt
        omega
      split
      · rename_i hany
        exfalso
        have hsplit : (s.speech_buffer ++ [false]).drop 3 =
            s.speech_buffer.drop 3 ++ [false] := by
          rw [List.drop_append_eq_append_drop]
          have : 3 - s.speech_buffer.length = 0 := by omega
          rw [this, List.drop_zero]
        have : lastSlice 3 (s.speech_buffer ++ [false]) =
            s.speech_buffer.drop 3 ++ [false] := by
          unfold lastSlice
          have : (s.speech_buffer ++ [false]).length - 3 = 3 := by
            simp
            omega
          rw [this, hsplit]

        rw [this] at hany
        rw [List.any_eq_true] at hany
        obtain ⟨b, hb, hbt⟩ := hany
        rcases List.mem_append.mp hb with hb1 | hb2
        · have := hdrop b hb1
          simp [this] at hbt
        · simp at hb2
          simp [hb2] at hbt
      · exact ⟨by simp, by intro b hb; simp at hb⟩
    · rename_i hle
      refine ⟨?_, ?_⟩
      · simp at hle ⊢
        omega
      · intro b hb
        rw [List.drop_append_eq_append_drop] at hb
        rcases List.mem_append.mp hb with hb1 | hb2
        · exact hdrop b hb1
        · have := List.mem_of_mem_drop hb2
          simp at this
          exact this

lemma vadInv_foldl {β : Type} (step : VADState → β → VADState)
    (hstep : ∀ s b, VADInv s → VADInv (step s b)) :
    ∀ (xs : List β) (s : VADState), VADInv s → VADInv (xs.foldl step s) := by
  intro xs
  induction xs with
  | nil => intro s h; exact h
  | cons x xs ih => intro s h; exact ih (step s x) (hstep s x h)

lemma vadInv_run (ds : List Bool) : VADInv (runVAD ds) :=
  vadInv_foldl processDecision vadInv_step ds initVAD vadInv_init

/-! ## Claims C1 and C6 -/

/-- Claim C1, counterexample: feeding raw decisions `[false, false, false]`
leaves the detector not speaking, yet one more `true` raw decision — just 1
consecutive `true` since the last `false`, not the ≥3 the claim requires —
makes `is_speaking` true. -/
theorem vad_attack_counterexample :
    (runVAD [false, false, false]).is_speaking = false ∧
    (runVAD [false, false, false, true]).is_speaking = true ∧
    consecTrueSuffix [false, false, false, true] = 1 := by
  refine ⟨by decide, by decide, by decide⟩

/-- Claim C1 as amended: over any raw-decision sequence fed to a single
detector, `is_speaking` becomes true only on a frame whose raw decision is
true and at which the rolling buffer already holds at least 3 entries (so at
least 4 including the current decision — regardless of how many of them were
true); and it becomes false only on a false raw decision when the buffer
holds 5 entries (6 including the current one) and the most recent 3 entries
are all false. -/
theorem vad_hysteresis_transitions :
    (∀ (ds : List Bool) (d : Bool),
      (runVAD ds).is_speaking = false →
      (processDecision (runVAD ds) d).is_speaking = true →
      d = true ∧ 3 ≤ (runVAD ds).speech_buffer.length) ∧
    (∀ (ds : List Bool) (d : Bool),
      (runVAD ds).is_speaking = true →
      (processDecision (runVAD ds) d).is_speaking = false →
      d = false ∧ (runVAD ds).speech_buffer.length = 5 ∧
        (lastSlice 3 ((runVAD ds).speech_buffer ++ [false])).any id = false) := by
  constructor
  · intro ds d hoff hon
    unfold processDecision at hon
    cases d with
    | true =>
      refine ⟨rfl, ?_⟩
      simp only [if_pos] at hon
      split at hon
      · rename_i hgt
        simp at hgt
        omega
      · simp [hoff] at hon
    | false =>
      exfalso
      simp only [Bool.false_eq_true, if_neg, not_false_iff] at hon
      split at hon
      · split at hon
        · simp [hoff] at hon
        · simp at hon
      · simp [hoff] at hon
  · intro ds d hon hoff
    unfold processDecision at hoff
    cases d with
    | true =>
      exfalso
      simp only [if_pos] at hoff
      split at hoff
      · simp at hoff
      · simp [hon] at hoff
    | false =>
      refine ⟨rfl, ?_⟩
      simp only [Bool.false_eq_true, if_neg, not_false_iff] at hoff
      split at hoff
      · rename_i hgt
        split at hoff
        · simp [hon] at hoff
        · rename_i hany
          have hinv := (vadInv_run ds).1
          simp at hgt
          refine ⟨by omega, by simpa using hany⟩
      · simp [hon] at hoff

/-- Witness for `vad_hysteresis_transitions`, instantiating the entering
direction at the sequence `[false, false, false]` followed by a true
decision. -/
theorem vad_hysteresis_transitions_witness :
    true = true ∧ 3 ≤ (runVAD [false, false, false]).speech_buffer.length :=
  vad_hysteresis_transitions.1 [false, false, false] true (by decide) (by decide)

/-- Claim C6: after every `process_audio` call of a single detector — whether
driven directly by raw decisions or by normalized fallback frames — the
rolling raw-decision buffer `speech_buffer` has length at most 5. -/
theorem vad_buffer_bounded :
    (∀ ds : List Bool, (runVAD ds).speech_buffer.length ≤ 5) ∧
    (∀ frames : List (List ℚ),
      (frames.foldl process_audio initVAD).speech_buffer.length ≤ 5) := by
  constructor
  · intro ds
    exact (vadInv_run ds).1
  · intro frames
    exact (vadInv_foldl process_audio
      (fun s f h => vadInv_step s (fallbackDecision f) h)
      frames initVAD vadInv_init).1

/-! ## Conversation manager (`src/ai_brain.py`) -/

/-- The Python exception classes that the embedded code can raise or catch. -/
inductive PyErr where
  | apiError
  | jsonDecodeError
  | valueError
  | indexError
  | keyError
deriving DecidableEq

/-- One message dict of the conversation history (timestamps are not
modelled; they influence no claim). -/
structure Msg where
  role : List Char
  content : List Char
  emotion : Option (List Char)
deriving DecidableEq

/-- The mutable fields of a `ConversationManager` relevant to the claims. -/
structure CMState where
  conversation_history : List Msg
  user_name : List Char
  user_pref_name : Option (List Char)
  conversation_mood : List Char
  conversation_topics : List (List Char)
deriving DecidableEq

def userRole : List Char := "user".toList

def assistantRole : List Char := "assistant".toList

def thoughtsMarker : List Char := "[THOUGHTS:".toList

def responseMarker : List Char := "[RESPONSE:".toList

/-- The `'my name is '` phrase used by `_update_conversation_meta`. -/
def namePhrase : List Char := "my name is ".toList

/-- The fixed system message seeded by `_initialize_conversation`. -/
def systemMessage : Msg :=
  ⟨"system".toList,
   ("You are Anglo, a personal assistant voice AI representing Edward Asimeng. You are calm, confident, and professional with a Neutral Ghanaian/African English accent. You are intelligent but humble, helpful and respectful, clear and confident, patient and explanatory. You assist with daily tasks, planning, technical explanations, and general questions. Always be polite, helpful, and honest. If unsure, say you do not know and ask for clarification. Avoid offensive, illegal, or harmful content. When explaining technical topics, start simple and go deeper if the user asks. Use the following format for your responses: \n[THOUGHTS: Your internal monologue about the conversation]\n[RESPONSE: Your actual response to the user]".toList),
   none⟩

/-- `_initialize_conversation`: seed the system message, then extend with the
last `max_history*2` persisted records if a readable file exists (`saved`
is `none` when the file is absent or unreadable). -/
def initConversation (mh : Nat) (saved : Option (List Msg)) : List Msg :=
  systemMessage :: (match saved with
    | none => []
    | some l => pyTail (mh * 2) l)

/-- `ConversationManager.__init__`. -/
def initState (mh : Nat) (saved : Option (List Msg)) : CMState :=
  { conversation_history := initConversation mh saved
    user_name := "User".toList
    user_pref_name := none
    conversation_mood := "neutral".toList
    conversation_topics := [] }

/-- The outcome of the random draws inside one `humanize_text` call. -/
structure HumRand where
  useFiller : Bool
  useThinking : Bool
  useAck : Bool
  useEmotion : Bool
  glyph : Nat
deriving DecidableEq

/-- Random draws that take none of the probabilistic branches. -/
def quietHum : HumRand := ⟨false, false, false, false, 0⟩

/-- `HUMAN_TRAITS['EMOTIONS']` from `src/audio_utils.py`. The dict has no
other keys, although `humanize_text` reads three more. -/
def EMOTIONS : List (List Char) :=
  ["angry".toList, "disust".toList, "fear".toList, "joy".toList,
   "sadness".toList, "surprise".toList, "neutral".toList]

/-- `get_random_emotion`: return the requested key when it is in the emotion
list, else a (randomly chosen) member of the list. -/
def get_random_emotion (e : List Char) (g : Nat) : List Char :=
  if e ∈ EMOTIONS then e else EMOTIONS.getD (g % EMOTIONS.length) []

/-- `humanize_text` (ai_brain.py lines 95-121). The probabilistic branches
index `HUMAN_TRAITS` keys (`'fillers'`, `'thinking_phrases'`,
`'acknowledgments'`) that `audio_utils.HUMAN_TRAITS` does not define, so any
taken branch raises `KeyError`. -/
def humanize_text (text : List Char) (emotion : List Char) (r : HumRand) :
    Except PyErr (List Char) :=
  if isAllSpace text then .ok text
  else if r.useFiller then .error .keyError
  else if r.useThinking ∧ 5 < (tokens text).length then .error .keyError
  else if r.useAck ∧ 8 < (tokens text).length then .error .keyError
  else if r.useEmotion then .ok (text ++ ' ' :: get_random_emotion emotion r.glyph)
  else .ok text

/-- `_update_conversation_meta` (ai_brain.py lines 165-182). `longGap` is
whether more than one hour elapsed since the last interaction. The name
extraction can raise `IndexError` (modelled as `.error .indexError`):
`content.split('my name is ', 1)[1]` fails when the guard matched only
case-insensitively, and `.split()[0]` fails when only whitespace follows. -/
def updateConversationMeta (st : CMState) (content : List Char)
    (role : List Char) (longGap : Bool) : Except PyErr CMState :=
  let st1 := if longGap then { st with conversation_mood := "warm".toList } else st
  if role = userRole then
    if containsSub (content.map Char.toLower) namePhrase = true then
      match afterFirst content namePhrase with
      | none => .error .indexError
      | some rest =>
        match tokens rest with
        | [] => .error .indexError
        | t :: _ =>
          if rstripPunct t ≠ [] ∧ 1 < (rstripPunct t).length then
            .ok { st1 with user_name := rstripPunct t,
                           user_pref_name := some (rstripPunct t) }
          else .ok st1
    else .ok st1
  else .ok st1

/-- Second half of `add_message` (ai_brain.py lines 193-205), after the
content has passed the blank check and humanization: build the message dict,
append it, run the meta update (which may raise), and truncate to the cap. -/
def appendAndFinish (mh : Nat) (st : CMState) (role c : List Char)
    (emo : Option (List Char)) (longGap : Bool) : CMState × Option PyErr :=
  let msg : Msg := ⟨role, c, some (emo.getD st.conversation_mood)⟩
  let st1 := { st with conversation_history := st.conversation_history ++ [msg] }
  match updateConversationMeta st1 c role longGap with
  | .error e => (st1, some e)
  | .ok st2 =>
    if mh * 2 + 1 < st2.conversation_history.length then
      ({ st2 with conversation_history :=
          st2.conversation_history.take 1 ++
            pyTail (mh * 2) st2.conversation_history }, none)
    else (st2, none)

/-- `add_message` (ai_brain.py lines 184-205). The second component is the
propagated exception, if any; on an exception the partially mutated state is
kept, exactly as the Python object would be. -/
def add_message (mh : Nat) (st : CMState) (role content : List Char)
    (emo : Option (List Char)) (hr : HumRand) (longGap : Bool) :
    CMState × Option PyErr :=
  if isAllSpace content then (st, none)
  else
    match (if role = assistantRole ∧ startsWith content thoughtsMarker = false then
             humanize_text content st.conversation_mood hr
           else .ok content : Except PyErr (List Char)) with
    | .error e => (st, some e)
    | .ok c => appendAndFinish mh st role c emo longGap

/-- One `add_message` call of a call sequence, with its per-call random
draws and elapsed-time outcome. -/
structure Call where
  role : List Char
  content : List Char
  emo : Option (List Char)
  hr : HumRand
  longGap : Bool
deriving DecidableEq

/-- A user-role call with quiet randomness and no long gap. -/
def userCall (content : List Char) : Call :=
  ⟨userRole, content, none, quietHum, false⟩

/-- Run a sequence of `add_message` calls on a freshly constructed manager
(exceptions leave their partial mutation behind, as in Python). -/
def runConv (mh : Nat) (saved : Option (List Msg)) (cs : List Call) : CMState :=
  cs.foldl (fun s c => (add_message mh s c.role c.content c.emo c.hr c.longGap).1)
    (initState mh saved)

/-- `save_conversation` (ai_brain.py lines 214-222): persist every message
except the system message at index 0. -/
def save_conversation (st : CMState) : List Msg := st.conversation_history.drop 1

/-! ## Helper lemmas about the string operations -/

lemma mem_of_startsWith : ∀ {hay pre : List Char}, startsWith hay pre = true →
    ∀ c ∈ pre, c ∈ hay := by
  intro hay
  induction hay with
  | nil =>
    intro pre h c hc
    cases pre with
    | nil => simp at hc
    | cons b bs => simp [startsWith] at h
  | cons a as ih =>
    intro pre h c hc
    cases pre with
    | nil => simp at hc
    | cons b bs =>
      simp only [startsWith, Bool.and_eq_true, beq_iff_eq] at h
      rcases List.mem_cons.mp hc with rfl | hc2
      · exact List.mem_cons.mpr (Or.inl h.1.symm)
      · exact List.mem_cons.mpr (Or.inr (ih h.2 c hc2))

lemma mem_of_containsSub : ∀ {hay needle : List Char},
    containsSub hay needle = true → ∀ c ∈ needle, c ∈ hay := by
  intro hay
  induction hay with
  | nil =>
    intro needle h c hc
    simp only [containsSub, List.isEmpty_iff] at h
    subst h
    simp at hc
  | cons a rest ih =>
    intro needle h c hc
    simp only [containsSub, Bool.or_eq_true] at h
    rcases h with h1 | h2
    · exact mem_of_startsWith h1 c hc
    · exact List.mem_cons.mpr (Or.inr (ih h2 c hc))

lemma not_allSpace_of_mem {s : List Char} {c : Char} (hc : c ∈ s)
    (hns : isSpace c = false) : isAllSpace s = false := by
  cases h : isAllSpace s
  · rfl
  · exfalso
    simp only [isAllSpace] at h
    have := List.all_eq_true.mp h c hc
    rw [hns] at this
    exact Bool.false_ne_true this

lemma toLower_space {c : Char} (h : isSpace c = true) : Char.toLower c = c := by
  simp only [isSpace, Bool.or_eq_true, beq_iff_eq] at h
  rcases h with ((((h | h) | h) | h) | h) | h <;> subst h <;> decide

lemma notBlank_of_lower_contains_phrase {content : List Char}
    (h : containsSub (content.map Char.toLower) namePhrase = true) :
    isAllSpace content = false := by
  have hm : ('m' : Char) ∈ content.map Char.toLower :=
    mem_of_containsSub h 'm' (by decide)
  obtain ⟨c, hc, hlc⟩ := List.mem_map.mp hm
  cases hsp : isSpace c
  · exact not_allSpace_of_mem hc hsp
  · exfalso
    rw [toLower_space hsp] at hlc
    subst hlc
    exact absurd hsp (by decide)

lemma contains_of_afterFirst : ∀ {hay sep r : List Char},
    afterFirst hay sep = some r → containsSub hay sep = true := by
  intro hay
  induction hay with
  | nil => intro sep r h; simp [afterFirst] at h
  | cons a rest ih =>
    intro sep r h
    simp only [afterFirst] at h
    split at h
    · rename_i hs
      simp [containsSub, hs]
    · simp only [containsSub, Bool.or_eq_true]
      exact Or.inr (ih h)

lemma afterFirst_none_of_not_contains : ∀ {hay sep : List Char},
    containsSub hay sep = false → afterFirst hay sep = none := by
  intro hay
  induction hay with
  | nil => intro sep _; rfl
  | cons a rest ih =>
    intro sep h
    simp only [containsSub, Bool.or_eq_false_iff] at h
    simp only [afterFirst, h.1, Bool.false_eq_true, if_false]
    exact ih h.2

lemma startsWith_map (f : Char → Char) : ∀ {hay pre : List Char},
    startsWith hay pre = true → startsWith (hay.map f) (pre.map f) = true := by
  intro hay
  induction hay with
  | nil =>
    intro pre h
    cases pre with
    | nil => rfl
    | cons b bs => simp [startsWith] at h
  | cons a as ih =>
    intro pre h
    cases pre with
    | nil => rfl
    | cons b bs =>
      simp only [startsWith, Bool.and_eq_true, beq_iff_eq] at h
      simp only [List.map_cons, startsWith, Bool.and_eq_true, beq_iff_eq]
      exact ⟨congrArg f h.1, ih h.2⟩

lemma containsSub_map (f : Char → Char) : ∀ {hay sep : List Char},
    containsSub hay sep = true → containsSub (hay.map f) (sep.map f) = true := by
  intro hay
  induction hay with
  | nil =>
    intro sep h
    simp only [containsSub, List.isEmpty_iff] at h
    subst h
    rfl
  | cons a rest ih =>
    intro sep h
    simp only [containsSub, Bool.or_eq_true] at h
    simp only [List.map_cons, containsSub, Bool.or_eq_true]
    rcases h with h1 | h2
    · left
      have := startsWith_map f h1
      simpa using this
    · exact Or.inr (ih h2)

lemma namePhrase_lower : namePhrase.map Char.toLower = namePhrase := by decide

lemma lower_contains_of_contains {content : List Char}
    (h : containsSub content namePhrase = true) :
    containsSub (content.map Char.toLower) namePhrase = true := by
  have := containsSub_map Char.toLower h
  rwa [namePhrase_lower] at this

/-! ## Conversation invariant lemmas -/

lemma meta_ok_history {st st2 : CMState} {content role : List Char} {gap : Bool}
    (h : updateConversationMeta st content role gap = .ok st2) :
    st2.conversation_history = st.conversation_history := by
  unfold updateConversationMeta at h
  repeat' split at h
  all_goals first
    | (simp only [Except.ok.injEq] at h; subst h; rfl)
    | simp at h

lemma appendAndFinish_head {mh : Nat} {st : CMState} {role c : List Char}
    {emo : Option (List Char)} {gap : Bool} {t : List Msg}
    (ht : st.conversation_history = systemMessage :: t) :
    (appendAndFinish mh st role c emo gap).1.conversation_history.head? =
      some systemMessage := by
  unfold appendAndFinish
  dsimp only
  split
  · rename_i e he
    simp [ht]
  · rename_i st2 hst2
    have h2 : st2.conversation_history =
        st.conversation_history ++ [⟨role, c, some (emo.getD st.conversation_mood)⟩] := by
      simpa using meta_ok_history hst2
    split
    · simp [h2, ht]
    · simp [h2, ht]

lemma addMessage_head {mh : Nat} {st : CMState} {role content : List Char}
    {emo : Option (List Char)} {hr : HumRand} {gap : Bool}
    (h : st.conversation_history.head? = some systemMessage) :
    (add_message mh st role content emo hr gap).1.conversation_history.head? =
      some systemMessage := by
  obtain ⟨t, ht⟩ : ∃ t, st.conversation_history = systemMessage :: t := by
    cases hh : st.conversation_history with
    | nil => rw [hh] at h; exact absurd h (by simp)
    | cons x xs =>
      rw [hh] at h
      simp only [List.head?_cons, Option.some.injEq] at h
      exact ⟨xs, by rw [← h]⟩
  unfold add_message
  split
  · exact h
  · split
    · exact h
    · exact appendAndFinish_head ht

lemma appendAndFinish_clean_len {mh : Nat} {st : CMState} {role c : List Char}
    {emo : Option (List Char)} {gap : Bool} (hmh : 1 ≤ mh)
    (hok : (appendAndFinish mh st role c emo gap).2 = none) :
    (appendAndFinish mh st role c emo gap).1.conversation_history.length ≤
      mh * 2 + 1 := by
  unfold appendAndFinish at hok ⊢
  dsimp only at hok ⊢
  split at hok
  · simp at hok
  · rename_i st2 hst2
    split
    · rename_i hcap
      have hne : mh * 2 ≠ 0 := by omega
      show (List.take 1 st2.conversation_history ++
        pyTail (mh * 2) st2.conversation_history).length ≤ mh * 2 + 1
      unfold pyTail lastSlice
      rw [if_neg hne]
      simp only [List.length_append, List.length_take, List.length_drop]
      omega
    · rename_i hcap
      show st2.conversation_history.length ≤ mh * 2 + 1
      omega

lemma addMessage_clean_len {mh : Nat} {st : CMState} {role content : List Char}
    {emo : Option (List Char)} {hr : HumRand} {gap : Bool} (hmh : 1 ≤ mh)
    (hnb : isAllSpace content = false)
    (hok : (add_message mh st role content emo hr gap).2 = none) :
    (add_message mh st role content emo hr gap).1.conversation_history.length ≤
      mh * 2 + 1 := by
  unfold add_message at hok ⊢
  rw [hnb] at hok ⊢
  simp only [Bool.false_eq_true, if_false] at hok ⊢
  split at hok
  · simp at hok
  · exact appendAndFinish_clean_len hmh hok

lemma runConv_head (mh : Nat) (saved : Option (List Msg)) (cs : List Call) :
    (runConv mh saved cs).conversation_history.head? = some systemMessage := by
  have base : (initState mh saved).conversation_history.head? = some systemMessage := rfl
  unfold runConv
  generalize initState mh saved = s0 at base ⊢
  induction cs generalizing s0 with
  | nil => exact base
  | cons c cs ih =>
    exact ih _ (addMessage_head base)

/-! ## Claims C2 and C3 -/

/-- The four-call sequence refuting the length bound of claim C2 at
`max_history = 1`: three ordinary user messages fill the history to its cap,
then a user message matching the name phrase only case-insensitively raises
`IndexError` after the append but before the truncation. -/
def c2calls : List Call :=
  [userCall "a".toList, userCall "b".toList, userCall "c".toList,
   userCall "My name is Bob".toList]

/-- Claim C2, counterexample: with `max_history = 1` the call sequence
`c2calls` leaves the history at length 4 > 2*1+1 after its last call, because
that call raises `IndexError` in name extraction after appending and before
truncating. -/
theorem conversation_cap_counterexample :
    (runConv 1 none c2calls).conversation_history.length = 4 ∧
    ¬ ((runConv 1 none c2calls).conversation_history.length ≤ 1 * 2 + 1) := by
  exact ⟨by decide, by decide⟩

/-- Claim C2 as amended: for every `max_history ≥ 1` and every `addMessage`
call sequence, the message at index 0 is always the system message seeded at
construction; and after every call that returns normally having actually
appended a message (non-blank content, no exception), the total history
length is at most `2*max_history + 1`. (A call that raises `IndexError`
during name extraction skips truncation and can leave the history one over
the cap; blank-content calls are no-ops.) -/
theorem conversation_history_invariants :
    ∀ mh : Nat, 1 ≤ mh →
      (∀ (saved : Option (List Msg)) (cs : List Call),
        (runConv mh saved cs).conversation_history.head? = some systemMessage) ∧
      (∀ (saved : Option (List Msg)) (cs : List Call) (c : Call),
        isAllSpace c.content = false →
        (add_message mh (runConv mh saved cs) c.role c.content c.emo c.hr c.longGap).2 = none →
        (add_message mh (runConv mh saved cs) c.role c.content c.emo c.hr c.longGap).1.conversation_history.length ≤ mh * 2 + 1) := by
  intro mh hmh
  exact ⟨fun saved cs => runConv_head mh saved cs,
         fun saved cs c hnb hok => addMessage_clean_len hmh hnb hok⟩

/-- Witness for `conversation_history_invariants` at `max_history = 1` with a
concrete one-call sequence. -/
theorem conversation_history_invariants_witness :
    (runConv 1 none [userCall "hi".toList]).conversation_history.head? = some systemMessage ∧
    (add_message 1 (runConv 1 none []) (userCall "hi".toList).role
      (userCall "hi".toList).content (userCall "hi".toList).emo
      (userCall "hi".toList).hr (userCall "hi".toList).longGap).1.conversation_history.length ≤ 1 * 2 + 1 :=
  ⟨(conversation_history_invariants 1 (by decide)).1 none [userCall "hi".toList],
   (conversation_history_invariants 1 (by decide)).2 none [] (userCall "hi".toList)
     (by decide) (by decide)⟩

/-- Claim C3: from any state reachable by `addMessage` calls, saving and then
constructing a fresh manager with the same `max_history` yields exactly the
identically re-seeded system message followed by the up-to-`2*max_history`
most recent non-system messages (the saved history is everything after the
head, which is always the system message), unchanged and in their original
order (a suffix of the saved non-system messages, of length
`min (2*max_history)` the number saved). -/
theorem conversation_roundtrip :
    ∀ (mh : Nat), 1 ≤ mh → ∀ (saved : Option (List Msg)) (cs : List Call),
      (runConv mh saved cs).conversation_history.head? = some systemMessage ∧
      initConversation mh (some (save_conversation (runConv mh saved cs))) =
        systemMessage ::
          lastSlice (mh * 2) ((runConv mh saved cs).conversation_history.drop 1) ∧
      lastSlice (mh * 2) ((runConv mh saved cs).conversation_history.drop 1) <:+
        ((runConv mh saved cs).conversation_history.drop 1) ∧
      (lastSlice (mh * 2) ((runConv mh saved cs).conversation_history.drop 1)).length =
        min (mh * 2) ((runConv mh saved cs).conversation_history.drop 1).length := by
  intro mh hmh saved cs
  have hne : mh * 2 ≠ 0 := by omega
  refine ⟨runConv_head mh saved cs, ?_, ?_, ?_⟩
  · unfold initConversation save_conversation pyTail
    dsimp only
    rw [if_neg hne]
  · unfold lastSlice
    exact List.drop_suffix _ _
  · unfold lastSlice
    rw [List.length_drop]
    omega

/-- Witness for `conversation_roundtrip` at `max_history = 1` with one call. -/
theorem conversation_roundtrip_witness :
    (runConv 1 none [userCall "hi".toList]).conversation_history.head? = some systemMessage ∧
    initConversation 1 (some (save_conversation (runConv 1 none [userCall "hi".toList]))) =
      systemMessage ::
        lastSlice (1 * 2) ((runConv 1 none [userCall "hi".toList]).conversation_history.drop 1) ∧
    lastSlice (1 * 2) ((runConv 1 none [userCall "hi".toList]).conversation_history.drop 1) <:+
      ((runConv 1 none [userCall "hi".toList]).conversation_history.drop 1) ∧
    (lastSlice (1 * 2) ((runConv 1 none [userCall "hi".toList]).conversation_history.drop 1)).length =
      min (1 * 2) ((runConv 1 none [userCall "hi".toList]).conversation_history.drop 1).length :=
  conversation_roundtrip 1 (by decide) none [userCall "hi".toList]

/-! ## Claims C7 and C10 -/

lemma meta_name_ok {st : CMState} {content rest t : List Char}
    {ts : List (List Char)} {gap : Bool}
    (h1 : afterFirst content namePhrase = some rest)
    (h2 : tokens rest = t :: ts) :
    updateConversationMeta st content userRole gap =
      .ok (if rstripPunct t ≠ [] ∧ 1 < (rstripPunct t).length then
             { (if gap then { st with conversation_mood := "warm".toList } else st) with
                 user_name := rstripPunct t,
                 user_pref_name := some (rstripPunct t) }
           else (if gap then { st with conversation_mood := "warm".toList } else st)) := by
  have hlow := lower_contains_of_contains (contains_of_afterFirst h1)
  unfold updateConversationMeta
  rw [if_pos rfl, if_pos hlow, h1]
  dsimp only
  rw [h2]
  dsimp only
  split <;> rfl

lemma meta_index_error {st : CMState} {content : List Char} {gap : Bool}
    (h1 : containsSub (content.map Char.toLower) namePhrase = true)
    (h2 : containsSub content namePhrase = false ∨
          ∃ r, afterFirst content namePhrase = some r ∧ tokens r = []) :
    updateConversationMeta st content userRole gap = .error .indexError := by
  unfold updateConversationMeta
  rw [if_pos rfl, if_pos h1]
  rcases h2 with h2l | ⟨r, hr, htok⟩
  · rw [afterFirst_none_of_not_contains h2l]
  · rw [hr]
    dsimp only
    rw [htok]

lemma role_not_assistant {content : List Char} :
    ¬ (userRole = assistantRole ∧ startsWith content thoughtsMarker = false) := by
  rintro ⟨hx, -⟩
  exact absurd hx (by decide)

/-- Claim C7, counterexample: the user message `"My name is Kwame"` contains
the phrase case-insensitively, so the claim says the remembered name becomes
`"Kwame"`; the code instead raises `IndexError` (the split against the
original content finds no occurrence) and leaves the name unchanged. -/
theorem name_extraction_counterexample :
    (add_message 15 (initState 15 none) userRole "My name is Kwame".toList
      none quietHum false).2 = some PyErr.indexError ∧
    (add_message 15 (initState 15 none) userRole "My name is Kwame".toList
      none quietHum false).1.user_name = "User".toList ∧
    "User".toList ≠ "Kwame".toList := by
  exact ⟨by decide, by decide, by decide⟩

/-- Claim C7 as amended: for every user message whose content contains the
exact (lower-case) phrase `'my name is '` with at least one
whitespace-delimited token following it, `addMessage` completes without
raising, extracts that first token, strips trailing `.,!?`, and exactly when
the stripped token is non-empty and longer than 1 character records it as the
remembered user name and name preference; in particular
`"Hi, my name is Kwame."` sets the name to `"Kwame"`, and `"my name is"`
alone leaves it unchanged (the phrase requires the trailing space, so the
guard does not even fire). -/
theorem name_extraction_amended :
    (∀ (mh : Nat) (st : CMState) (content rest t : List Char)
       (ts : List (List Char)) (emo : Option (List Char)) (hr : HumRand)
       (gap : Bool),
       afterFirst content namePhrase = some rest →
       tokens rest = t :: ts →
       (add_message mh st userRole content emo hr gap).2 = none ∧
       (add_message mh st userRole content emo hr gap).1.user_name =
         (if rstripPunct t ≠ [] ∧ 1 < (rstripPunct t).length then rstripPunct t
          else st.user_name) ∧
       (add_message mh st userRole content emo hr gap).1.user_pref_name =
         (if rstripPunct t ≠ [] ∧ 1 < (rstripPunct t).length then
            some (rstripPunct t)
          else st.user_pref_name)) ∧
    (add_message 15 (initState 15 none) userRole "Hi, my name is Kwame.".toList
      none quietHum false).1.user_name = "Kwame".toList ∧
    (add_message 15 (initState 15 none) userRole "my name is".toList
      none quietHum false).1.user_name = "User".toList ∧
    (add_message 15 (initState 15 none) userRole "my name is".toList
      none quietHum false).2 = none := by
  refine ⟨?_, by decide, by decide, by decide⟩
  intro mh st content rest t ts emo hr gap h1 h2
  have hnb := notBlank_of_lower_contains_phrase
    (lower_contains_of_contains (contains_of_afterFirst h1))
  unfold add_message
  rw [hnb]
  simp only [Bool.false_eq_true, if_false]
  rw [if_neg role_not_assistant]
  dsimp only
  unfold appendAndFinish
  dsimp only
  rw [meta_name_ok h1 h2]
  dsimp only
  repeat' split
  all_goals exact ⟨rfl, rfl, rfl⟩

/-- Witness for `name_extraction_amended`, instantiating the general clause
at the message `"Hi, my name is Kwame."`. -/
theorem name_extraction_amended_witness :
    (add_message 15 (initState 15 none) userRole "Hi, my name is Kwame.".toList
      none quietHum false).2 = none ∧
    (add_message 15 (initState 15 none) userRole "Hi, my name is Kwame.".toList
      none quietHum false).1.user_name =
      (if rstripPunct "Kwame.".toList ≠ [] ∧ 1 < (rstripPunct "Kwame.".toList).length
       then rstripPunct "Kwame.".toList else (initState 15 none).user_name) ∧
    (add_message 15 (initState 15 none) userRole "Hi, my name is Kwame.".toList
      none quietHum false).1.user_pref_name =
      (if rstripPunct "Kwame.".toList ≠ [] ∧ 1 < (rstripPunct "Kwame.".toList).length
       then some (rstripPunct "Kwame.".toList) else (initState 15 none).user_pref_name) :=
  name_extraction_amended.1 15 (initState 15 none) "Hi, my name is Kwame.".toList
    "Kwame.".toList "Kwame.".toList [] none quietHum false (by decide) (by decide)

/-- Claim C10: for every user message whose lower-cased content contains
`'my name is '` but whose original content either lacks the exact lower-case
phrase or has only whitespace after its first occurrence, `addMessage` raises
`IndexError` (the partially mutated state keeps the appended message but the
remembered name is unchanged). -/
theorem add_message_index_error :
    ∀ (mh : Nat) (st : CMState) (content : List Char) (emo : Option (List Char))
      (hr : HumRand) (gap : Bool),
      containsSub (content.map Char.toLower) namePhrase = true →
      (containsSub content namePhrase = false ∨
        ∃ r, afterFirst content namePhrase = some r ∧ tokens r = []) →
      (add_message mh st userRole content emo hr gap).2 = some PyErr.indexError ∧
      (add_message mh st userRole content emo hr gap).1.user_name = st.user_name := by
  intro mh st content emo hr gap h1 h2
  have hnb := notBlank_of_lower_contains_phrase h1
  unfold add_message
  rw [hnb]
  simp only [Bool.false_eq_true, if_false]
  rw [if_neg role_not_assistant]
  dsimp only
  unfold appendAndFinish
  dsimp only
  rw [meta_index_error h1 h2]
  exact ⟨rfl, rfl⟩

/-- Witness for `add_message_index_error` at the message
`"My name is Kwame"` (case-insensitive match only). -/
theorem add_message_index_error_witness :
    (add_message 15 (initState 15 none) userRole "My name is Kwame".toList
      none quietHum true).2 = some PyErr.indexError ∧
    (add_message 15 (initState 15 none) userRole "My name is Kwame".toList
      none quietHum true).1.user_name = (initState 15 none).user_name :=
  add_message_index_error 15 (initState 15 none) "My name is Kwame".toList
    none quietHum true (by decide) (Or.inl (by decide))

/-! ## Sentiment analysis (`_analyze_sentiment`) and claim C8 -/

/-- `positive_words` of `_analyze_sentiment` (ai_brain.py line 229). -/
def positiveWords : List (List Char) :=
  ["happy".toList, "great".toList, "awesome".toList, "amazing".toList,
   "love".toList, "wonderful".toList]

/-- `negative_words` of `_analyze_sentiment` (ai_brain.py line 230). -/
def negativeWords : List (List Char) :=
  ["sad".toList, "bad".toList, "terrible".toList, "awful".toList,
   "hate".toList, "angry".toList]

/-- `_analyze_sentiment` (ai_brain.py lines 227-240). Python computes
`len(set(words) & word_set)`; because the lexicon has no duplicates this
equals the number of lexicon words occurring among the case-folded
whitespace tokens, which is how it is embedded here. -/
def analyzeSentiment (t : List Char) : List Char :=
  let ws := tokens (t.map Char.toLower)
  let pc := (positiveWords.filter (fun w => decide (w ∈ ws))).length
  let nc := (negativeWords.filter (fun w => decide (w ∈ ws))).length
  if nc + 1 < pc then "happy".toList
  else if pc + 1 < nc then "concerned".toList
  else "neutral".toList

/-- Sentiment as the specification words it: the counts of distinct positive
and negative words in the case-folded whitespace-tokenized text. -/
def specSentiment (t : List Char) : List Char :=
  let ws := tokens (t.map Char.toLower)
  let pc := ((ws.dedup).filter (fun w => decide (w ∈ positiveWords))).length
  let nc := ((ws.dedup).filter (fun w => decide (w ∈ negativeWords))).length
  if nc + 1 < pc then "happy".toList
  else if pc + 1 < nc then "concerned".toList
  else "neutral".toList

lemma length_filter_mem (A l : List (List Char)) (hA : A.Nodup) :
    (A.filter (fun w => decide (w ∈ l))).length = (A.toFinset ∩ l.toFinset).card := by
  have h1 : (A.filter (fun w => decide (w ∈ l))).Nodup := hA.filter _
  rw [← List.toFinset_card_of_nodup h1, List.toFinset_filter]
  congr 1
  ext x
  simp

lemma sentiment_counts (A l : List (List Char)) (hA : A.Nodup) :
    (A.filter (fun w => decide (w ∈ l))).length =
      ((l.dedup).filter (fun w => decide (w ∈ A))).length := by
  rw [length_filter_mem A l hA, length_filter_mem l.dedup A (List.nodup_dedup l)]
  rw [show l.dedup.toFinset = l.toFinset from by ext x; simp]
  rw [Finset.inter_comm]

/-- The first two statements of `get_response` (ai_brain.py lines 252-258):
assign the derived sentiment to the manager's mood field, then append the
user message. -/
def gr_userAppendState (mh : Nat) (st0 : CMState) (u : List Char)
    (hrU : HumRand) (gapU : Bool) : CMState × Option PyErr :=
  add_message mh { st0 with conversation_mood := analyzeSentiment u }
    userRole u none hrU gapU

lemma getLast?_drop_of_lt {α : Type} (l : List α) (k : Nat) (h : k < l.length) :
    (l.drop k).getLast? = l.getLast? := by
  have hne : l.drop k ≠ [] := by
    intro hnil
    have h2 : (l.drop k).length = l.length - k := List.length_drop k l
    rw [hnil] at h2
    simp at h2
    omega
  conv_rhs => rw [← List.take_append_drop k l]
  rw [List.getLast?_append_of_ne_nil _ hne]

lemma userAppend_getLast {mh : Nat} {st : CMState} {u : List Char}
    {hr : HumRand} {gap : Bool} (hnb : isAllSpace u = false) :
    (add_message mh st userRole u none hr gap).1.conversation_history.getLast? =
      some ⟨userRole, u, some st.conversation_mood⟩ := by
  unfold add_message
  rw [hnb]
  simp only [Bool.false_eq_true, if_false]
  rw [if_neg role_not_assistant]
  dsimp only
  unfold appendAndFinish
  dsimp only
  split
  · rename_i e he
    exact List.getLast?_concat _
  · rename_i st2 hst2
    have h2 : st2.conversation_history = st.conversation_history ++
        [⟨userRole, u, some (Option.getD none st.conversation_mood)⟩] := by
      simpa using meta_ok_history hst2
    split
    · rename_i hcap
      show (List.take 1 st2.conversation_history ++
        pyTail (mh * 2) st2.conversation_history).getLast? = _
      have hlnil : st2.conversation_history ≠ [] := by
        rw [h2]; simp
      by_cases h0 : mh * 2 = 0
      · unfold pyTail
        rw [if_pos h0, List.getLast?_append_of_ne_nil _ hlnil, h2]
        exact List.getLast?_concat _
      · unfold pyTail lastSlice
        rw [if_neg h0]
        have hlen : 0 < st2.conversation_history.length :=
          List.length_pos.mpr hlnil
        have hdne : st2.conversation_history.drop
            (st2.conversation_history.length - mh * 2) ≠ [] := by
          intro hnil
          have h3 := List.length_drop
            (st2.conversation_history.length - mh * 2) st2.conversation_history
          rw [hnil] at h3
          simp at h3
          omega
        rw [List.getLast?_append_of_ne_nil _ hdne,
            getLast?_drop_of_lt _ _ (by omega), h2]
        exact List.getLast?_concat _
    · show st2.conversation_history.getLast? = _
      rw [h2]
      exact List.getLast?_concat _

/-- Claim C8: the sentiment rule matches the specification's
distinct-word-count characterization, the three example inputs map to
`happy`, `concerned` and `neutral`, and `get_response` assigns the derived
mood to the manager's mood field before appending the user message — hence
the appended user message itself carries that mood as its recorded emotion
(it is the last history entry right after the append step). -/
theorem sentiment_analysis :
    (∀ t : List Char, analyzeSentiment t = specSentiment t) ∧
    analyzeSentiment "I am happy and it was amazing".toList = "happy".toList ∧
    analyzeSentiment "I feel sad and angry".toList = "concerned".toList ∧
    analyzeSentiment "What time is it".toList = "neutral".toList ∧
    (∀ (mh : Nat) (st0 : CMState) (u : List Char) (hrU : HumRand) (gapU : Bool),
      isAllSpace u = false →
      (gr_userAppendState mh st0 u hrU gapU).1.conversation_history.getLast? =
        some ⟨userRole, u, some (analyzeSentiment u)⟩) := by
  refine ⟨?_, by decide, by decide, by decide, ?_⟩
  · intro t
    unfold analyzeSentiment specSentiment
    dsimp only
    rw [sentiment_counts positiveWords (tokens (t.map Char.toLower)) (by decide),
        sentiment_counts negativeWords (tokens (t.map Char.toLower)) (by decide)]
  · intro mh st0 u hrU gapU hnb
    exact userAppend_getLast hnb

/-- Witness for `sentiment_analysis`, instantiating the mood-before-append
clause at the user input `"hi"`. -/
theorem sentiment_analysis_witness :
    (gr_userAppendState 1 (initState 1 none) "hi".toList quietHum
      false).1.conversation_history.getLast? =
      some ⟨userRole, "hi".toList, some (analyzeSentiment "hi".toList)⟩ :=
  sentiment_analysis.2.2.2.2 1 (initState 1 none) "hi".toList quietHum false
    (by decide)

/-! ## Response orchestrator (`get_response`) and claims C4, C9 -/

deriving instance DecidableEq for Except

/-- Python `type(e).__name__` for the embedded exception classes. -/
def errName : PyErr → List Char
  | .apiError => "APIError".toList
  | .jsonDecodeError => "JSONDecodeError".toList
  | .valueError => "ValueError".toList
  | .indexError => "IndexError".toList
  | .keyError => "KeyError".toList

/-- The apostrophe character (kept out of string literals). -/
def apos : Char := Char.ofNat 39

/-- `error_msg` of the `openai.APIError` handler (ai_brain.py line 340),
with the randomly selected emotion word interpolated. -/
def apologyAPI (g : List Char) : List Char :=
  "I".toList ++ apos :: "m having trouble connecting to the AI service. ".toList ++
    g ++ " Let".toList ++ apos :: "s try again in a moment.".toList

/-- `error_msg` of the `json.JSONDecodeError` handler (line 364). -/
def apologyJSON (g : List Char) : List Char :=
  "I had trouble understanding the response. ".toList ++ g ++
    " Could you rephrase that?".toList

/-- `error_msg` of the `ValueError` handler (line 388). -/
def apologyValue (g : List Char) : List Char :=
  "I received an unexpected response format. ".toList ++ g ++
    " Let me try that again.".toList

/-- `error_msg` of the catch-all `Exception` handler (line 412). -/
def apologyOther (e : PyErr) (g : List Char) : List Char :=
  "Hmm, something unexpected happened (".toList ++ errName e ++ "). ".toList ++
    g ++ " Let".toList ++ apos :: "s try that again.".toList

/-- The observable outcome of one `get_response` call: the returned string
(or the propagated exception), the final manager state, and the thought
logged to the side channel, if any. -/
structure GROut where
  result : Except PyErr (List Char)
  state : CMState
  thought : Option (List Char)
deriving DecidableEq

/-- The except-clauses of `get_response` (ai_brain.py lines 337-431): each
category builds its apology and passes it through `humanize_text`. That call
sits inside the handler itself, so when its probabilistic branches fire the
resulting `KeyError` (missing `HUMAN_TRAITS` keys) propagates to the caller.
The structured error-log writes are file system effects with their own
swallowing try/except and are not modelled. -/
def gr_handle (e : PyErr) (st : CMState) (th : Option (List Char))
    (rErr : HumRand) (gErr : Nat) : GROut :=
  match e with
  | .apiError =>
    match humanize_text (apologyAPI (get_random_emotion "sad".toList gErr))
        "concerned".toList rErr with
    | .error e2 => ⟨.error e2, st, th⟩
    | .ok s => ⟨.ok s, st, th⟩
  | .jsonDecodeError =>
    match humanize_text (apologyJSON (get_random_emotion "confused".toList gErr))
        "confused".toList rErr with
    | .error e2 => ⟨.error e2, st, th⟩
    | .ok s => ⟨.ok s, st, th⟩
  | .valueError =>
    match humanize_text (apologyValue (get_random_emotion "confused".toList gErr))
        "confused".toList rErr with
    | .error e2 => ⟨.error e2, st, th⟩
    | .ok s => ⟨.ok s, st, th⟩
  | e =>
    match humanize_text (apologyOther e (get_random_emotion "thinking".toList gErr))
        "thinking".toList rErr with
    | .error e2 => ⟨.error e2, st, th⟩
    | .ok s => ⟨.ok s, st, th⟩

/-- THOUGHTS/RESPONSE extraction (ai_brain.py lines 301-319), applied when
both markers occur: the thought is the stripped text between `[THOUGHTS:`
and the next `]` (logged only when non-empty); the reply is the stripped
text after `[RESPONSE:`, with one trailing `]` removed and stripped again. -/
def extractMarkers (raw : List Char) : List Char × Option (List Char) :=
  let tpart := (afterFirst raw thoughtsMarker).getD raw
  let th := stripChars (tpart.takeWhile (fun c => !(c == ']')))
  let ai :=
    match afterFirst raw responseMarker with
    | some r2 =>
      let a := stripChars r2
      if a.getLast? = some ']' then stripChars a.dropLast else a
    | none => raw
  (ai, if th = [] then none else some th)

/-- `get_response` (ai_brain.py lines 242-431), with the external completion
outcome and every random draw passed explicitly. `result` is `.error`
exactly when an exception escapes to the caller. -/
def get_response (mh : Nat) (st0 : CMState) (u : List Char)
    (ext : Except PyErr (List Char)) (hrU : HumRand) (gapU : Bool)
    (hrA : HumRand) (gapA : Bool) (rErr : HumRand) (gErr : Nat) : GROut :=
  match gr_userAppendState mh st0 u hrU gapU with
  | (st2, some e) => gr_handle e st2 none rErr gErr
  | (st2, none) =>
    match ext with
    | .error e => gr_handle e st2 none rErr gErr
    | .ok raw =>
      if isAllSpace raw then gr_handle .valueError st2 none rErr gErr
      else
        let pr := if containsSub raw thoughtsMarker = true ∧
                     containsSub raw responseMarker = true then
                    extractMarkers raw
                  else (raw, none)
        let topic := stripChars (pr.1.take 30)
        let st3 := if 3 < st2.conversation_history.length then
                     { st2 with conversation_topics :=
                        if topic ∈ st2.conversation_topics then
                          st2.conversation_topics
                        else st2.conversation_topics ++ [topic] }
                   else st2
        match add_message mh st3 assistantRole pr.1
            (some (analyzeSentiment u)) hrA gapA with
        | (st4, some e) => gr_handle e st4 pr.2 rErr gErr
        | (st4, none) => ⟨.ok pr.1, st4, pr.2⟩

/-- Random draws whose filler branch fires (probability 10% in the code). -/
def fillerHum : HumRand := ⟨true, false, false, false, 0⟩

/-- Claim C4 (code bug): when the completion collaborator raises an API
error and the handler's `humanize_text` takes its 10% filler branch, the
lookup `HUMAN_TRAITS['fillers']` raises `KeyError` inside the handler, so
`get_response` propagates an exception to its caller instead of returning a
humanized apology string. -/
theorem get_response_propagates_keyerror :
    (get_response 15 (initState 15 none) "hello".toList (.error .apiError)
      quietHum false quietHum false fillerHum 0).result =
      .error PyErr.keyError := rfl

/-! ## Claim C9 -/

lemma humanize_quiet (text mood : List Char) :
    humanize_text text mood quietHum = .ok text := by
  unfold humanize_text quietHum
  split <;> rfl

lemma meta_assistant_ok (st : CMState) (content : List Char) (gap : Bool) :
    updateConversationMeta st content assistantRole gap =
      .ok (if gap then { st with conversation_mood := "warm".toList } else st) := by
  unfold updateConversationMeta
  rw [if_neg (by decide : ¬ (assistantRole = userRole))]

lemma assistant_quiet_ok (mh : Nat) (st : CMState) (content : List Char)
    (emo : Option (List Char)) (gap : Bool) :
    (add_message mh st assistantRole content emo quietHum gap).2 = none := by
  unfold add_message
  split
  · rfl
  · have hce : (if assistantRole = assistantRole ∧
        startsWith content thoughtsMarker = false then
          humanize_text content st.conversation_mood quietHum
        else .ok content) = .ok content := by
      split
      · exact humanize_quiet content st.conversation_mood
      · rfl
    rw [hce]
    dsimp only
    unfold appendAndFinish
    dsimp only
    rw [meta_assistant_ok]
    dsimp only
    split <;> split <;> rfl

lemma not_contains_of_afterFirst_none : ∀ {hay sep : List Char}, sep ≠ [] →
    afterFirst hay sep = none → containsSub hay sep = false := by
  intro hay
  induction hay with
  | nil =>
    intro sep hs _
    simp [containsSub, List.isEmpty_iff, hs]
  | cons a rest ih =>
    intro sep hs h
    simp only [afterFirst] at h
    split at h
    · exact absurd h (by simp)
    · rename_i hsw
      simp only [containsSub, Bool.or_eq_false_iff]
      exact ⟨by simpa using hsw, ih hs h⟩

/-- The concrete completion payload of claim C9's scenario. -/
def payloadC9 : List Char :=
  "[THOUGHTS: I should be concise][RESPONSE: Hello there]".toList

/-- The visible reply as claim C9's general rule words it: the text after
`[RESPONSE:` with one trailing `]` stripped if present — no whitespace
stripping. -/
def claimReplyC9 (raw : List Char) : List Char :=
  let t := (afterFirst raw responseMarker).getD raw
  if t.getLast? = some ']' then t.dropLast else t

/-- The visible reply as the amended claim words it: the text after
`[RESPONSE:` is whitespace-stripped, then one trailing `]` is removed if
present, then the result is whitespace-stripped again. -/
def amendReplyC9 (raw : List Char) : List Char :=
  let a := stripChars ((afterFirst raw responseMarker).getD raw)
  if a.getLast? = some ']' then stripChars a.dropLast else a

/-- The logged thought as the amended claim words it: the whitespace-stripped
text between `[THOUGHTS:` and the next `]`, logged only when non-empty. -/
def amendThoughtC9 (raw : List Char) : Option (List Char) :=
  let t := stripChars (((afterFirst raw thoughtsMarker).getD raw).takeWhile
    (fun c => !(c == ']')))
  if t = [] then none else some t

lemma extractMarkers_eq_amend {raw : List Char}
    (h2 : containsSub raw responseMarker = true) :
    (extractMarkers raw).1 = amendReplyC9 raw ∧
    (extractMarkers raw).2 = amendThoughtC9 raw := by
  cases h : afterFirst raw responseMarker with
  | none =>
    rw [not_contains_of_afterFirst_none (by decide) h] at h2
    exact absurd h2 (by simp)
  | some r2 =>
    unfold extractMarkers amendReplyC9 amendThoughtC9
    rw [h]
    exact ⟨rfl, rfl⟩

/-- Claim C9, counterexample: on the claim's own payload the code returns
`"Hello there"` and logs the thought `"I should be concise"`, but the
claim's stated extraction rule — the text after `[RESPONSE:` with one
trailing `]` stripped — yields `" Hello there"` (leading space kept), which
differs from what the code returns: the code also strips whitespace. -/
theorem orchestrator_markers_counterexample :
    (get_response 15 (initState 15 none) "hi".toList (.ok payloadC9)
      quietHum false quietHum false quietHum 0).result =
      .ok "Hello there".toList ∧
    (get_response 15 (initState 15 none) "hi".toList (.ok payloadC9)
      quietHum false quietHum false quietHum 0).thought =
      some "I should be concise".toList ∧
    claimReplyC9 payloadC9 = " Hello there".toList ∧
    " Hello there".toList ≠ "Hello there".toList := by
  exact ⟨rfl, rfl, rfl, by decide⟩

/-- Claim C9 as amended: for every completion payload containing both a
`[THOUGHTS:` and a `[RESPONSE:` marker, the orchestrator logs as the thought
the whitespace-stripped text between `[THOUGHTS:` and the next `]` (nothing
when it strips to empty), and returns as the user-visible reply the
whitespace-stripped text after `[RESPONSE:`, with one trailing `]` removed
if present and the result stripped again; payloads lacking either marker use
the raw text unmodified. -/
theorem orchestrator_markers_amended :
    (∀ raw : List Char,
      containsSub raw thoughtsMarker = true →
      containsSub raw responseMarker = true →
      (get_response 15 (initState 15 none) "hi".toList (.ok raw)
        quietHum false quietHum false quietHum 0).result =
        .ok (amendReplyC9 raw) ∧
      (get_response 15 (initState 15 none) "hi".toList (.ok raw)
        quietHum false quietHum false quietHum 0).thought =
        amendThoughtC9 raw) ∧
    (∀ raw : List Char,
      isAllSpace raw = false →
      ¬ (containsSub raw thoughtsMarker = true ∧
         containsSub raw responseMarker = true) →
      (get_response 15 (initState 15 none) "hi".toList (.ok raw)
        quietHum false quietHum false quietHum 0).result = .ok raw ∧
      (get_response 15 (initState 15 none) "hi".toList (.ok raw)
        quietHum false quietHum false quietHum 0).thought = none) := by
  constructor
  · intro raw h1 h2
    have hnb : isAllSpace raw = false :=
      not_allSpace_of_mem (mem_of_containsSub h1 '[' (by decide)) (by decide)
    unfold get_response
    rw [show gr_userAppendState 15 (initState 15 none) "hi".toList quietHum false =
        ((gr_userAppendState 15 (initState 15 none) "hi".toList quietHum false).1,
          none) from rfl]
    dsimp only
    rw [hnb]
    simp only [Bool.false_eq_true, if_false]
    rw [if_pos (show containsSub raw thoughtsMarker = true ∧
        containsSub raw responseMarker = true from ⟨h1, h2⟩)]
    rw [if_neg (by decide :
      ¬ (3 < (gr_userAppendState 15 (initState 15 none) "hi".toList quietHum
          false).1.conversation_history.length))]
    split
    · rename_i st4 e heq
      exfalso
      have h0 := assistant_quiet_ok 15
        (gr_userAppendState 15 (initState 15 none) "hi".toList quietHum false).1
        (extractMarkers raw).1 (some (analyzeSentiment "hi".toList)) false
      rw [heq] at h0
      exact absurd h0 (by simp)
    · exact ⟨congrArg Except.ok (extractMarkers_eq_amend h2).1,
             (extractMarkers_eq_amend h2).2⟩
  · intro raw hnb hno
    unfold get_response
    rw [show gr_userAppendState 15 (initState 15 none) "hi".toList quietHum false =
        ((gr_userAppendState 15 (initState 15 none) "hi".toList quietHum false).1,
          none) from rfl]
    dsimp only
    rw [hnb]
    simp only [Bool.false_eq_true, if_false]
    rw [if_neg hno]
    rw [if_neg (by decide :
      ¬ (3 < (gr_userAppendState 15 (initState 15 none) "hi".toList quietHum
          false).1.conversation_history.length))]
    split
    · rename_i st4 e heq
      exfalso
      have h0 := assistant_quiet_ok 15
        (gr_userAppendState 15 (initState 15 none) "hi".toList quietHum false).1
        raw (some (analyzeSentiment "hi".toList)) false
      rw [heq] at h0
      exact absurd h0 (by simp)
    · exact ⟨rfl, rfl⟩

/-- Witness for `orchestrator_markers_amended`, instantiating the two-marker
clause at the scenario payload and the no-marker clause at `"Hello"`. -/
theorem orchestrator_markers_amended_witness :
    ((get_response 15 (initState 15 none) "hi".toList (.ok payloadC9)
       quietHum false quietHum false quietHum 0).result =
       .ok (amendReplyC9 payloadC9) ∧
     (get_response 15 (initState 15 none) "hi".toList (.ok payloadC9)
       quietHum false quietHum false quietHum 0).thought =
       amendThoughtC9 payloadC9) ∧
    ((get_response 15 (initState 15 none) "hi".toList (.ok "Hello".toList)
       quietHum false quietHum false quietHum 0).result = .ok "Hello".toList ∧
     (get_response 15 (initState 15 none) "hi".toList (.ok "Hello".toList)
       quietHum false quietHum false quietHum 0).thought = none) :=
  ⟨orchestrator_markers_amended.1 payloadC9 (by decide) (by decide),
   orchestrator_markers_amended.2 "Hello".toList (by decide) (by decide)⟩

/-! ## Claim C5 -/

/-- Claim C5, counterexample: the one-sample frame `[0.001]` has normalized
mean absolute amplitude `0.001 ≤ 0.01`, so the claim says it is not speech;
but `process_audio` first converts to int16 (`0.001 * 32767` truncates to
`32`), and the threshold compares `32 > 0.01`, so the code classifies it as
speech. -/
theorem fallback_threshold_counterexample :
    fallbackDecision [(1 : ℚ)/1000] = true ∧
    specFallbackC5 [(1 : ℚ)/1000] = false := by
  constructor
  · unfold fallbackDecision
    rw [decide_eq_true_iff]
    unfold fallbackEnergy toInt16 truncQ
    simp only [List.map_cons, List.map_nil, List.sum_cons, List.sum_nil,
      List.length_cons, List.length_nil]
    rw [if_pos (by norm_num : (0 : ℚ) ≤ 1/1000 * 32767)]
    rw [show ⌊(1/1000 * 32767 : ℚ)⌋ = 32 from by
      rw [Int.floor_eq_iff]
      norm_num]
    norm_num
  · unfold specFallbackC5
    rw [decide_eq_false_iff_not]
    simp only [List.map_cons, List.map_nil, List.sum_cons, List.sum_nil,
      List.length_cons, List.length_nil]
    norm_num
    rw [abs_of_pos (show (0 : ℚ) < 1/1000 by norm_num)]
    norm_num

/-- Claim C5 as amended: with the classifier unavailable, a nonempty frame
of [-1,1]-normalized amplitude samples is classified as speech exactly when
the mean absolute value of the int16-converted samples (`x * 32767`
truncated toward zero) exceeds `0.01` — equivalently, exactly when
`100 * Σ |int16(xᵢ)|` exceeds the frame length. -/
theorem fallback_threshold_amended :
    ∀ frame : List ℚ, frame ≠ [] →
      (fallbackDecision frame = true ↔
        (frame.length : ℚ) <
          100 * ((frame.map toInt16).map (fun v => |(v : ℚ)|)).sum) := by
  intro frame hne
  unfold fallbackDecision fallbackEnergy
  rw [decide_eq_true_iff, List.length_map]
  have hn : (0 : ℚ) < (frame.length : ℚ) := by
    exact_mod_cast List.length_pos.mpr hne
  rw [lt_div_iff₀ hn]
  constructor <;> intro h <;> linarith

/-- Witness for `fallback_threshold_amended` at the frame `[0.001]`. -/
theorem fallback_threshold_amended_witness :
    fallbackDecision [(1 : ℚ)/1000] = true ↔
      (([(1 : ℚ)/1000].length : ℚ) <
        100 * (([(1 : ℚ)/1000].map toInt16).map (fun v => |(v : ℚ)|)).sum) :=
  fallback_threshold_amended [(1 : ℚ)/1000] (by simp)
